import Mathlib

/-!
Shallow embedding of the typed spreadsheet query layer
(`src/server/utils/spread-sheet-query/index2.ts` and the
`src/server/utils/sheetQuery` variant) together with proofs of the
specification's claims about it.

Modelling conventions:
* JS scalar cell values (`boolean | number | string | Date`) together with
  the JS `undefined` value are the inductive `JsVal`; out-of-bounds array
  reads and absent object keys produce `JsVal.undef`, as in JS.
* A JS object used as a record is an insertion-ordered association list
  `SheetRecord`; the spread update `{...acc, [k]: v}` keeps the original
  position of an existing key and appends a fresh key at the end.
* Functions that can `throw` return `Except String` (the string is the
  thrown error's message) or `Option` where only the throwing/normal split
  matters.
* The mutual-exclusion lock, the sheet collaborator and the caller-supplied
  procedure are explicit parameters of the transaction runner; their
  outcomes are data, and the runner's `try`/`catch`/`finally` control flow
  is translated branch by branch.
-/

set_option autoImplicit false

namespace SpreadSheetQuery

/-- The column type tags of the schema (`TypeName` in `types/utils`):
`"string" | "number" | "boolean" | "Date"` as used by `HEADER_REGEX`. -/
inductive TypeName : Type
  | string
  | number
  | boolean
  | date
deriving DecidableEq

/-- The literal spelling of a type tag as it appears in a header annotation. -/
def TypeName.toStr : TypeName → String
  | .string => "string"
  | .number => "number"
  | .boolean => "boolean"
  | .date => "Date"

/-- JS values flowing through the query layer: sheet scalars
(`boolean | number | string | Date`) plus the JS `undefined` value.
Numbers and dates are abstracted to integers; no arithmetic on them is
performed by the code under verification. -/
inductive JsVal : Type
  | vStr (s : String)
  | vNum (n : Int)
  | vBool (b : Bool)
  | vDate (d : Int)
  | undef
deriving DecidableEq

/-- One declared column of a schema: `ColumnType` in `index2.ts`. -/
structure ColumnType where
  name : String
  type : TypeName
deriving DecidableEq

/-- A record (`SheetRecord` in `index2.ts`): a JS object keyed by column
names, modelled as an insertion-ordered association list. -/
abbrev SheetRecord := List (String × JsVal)

/-- JS property read `r[k]`: the value at the first matching key, or
`undefined` when the key is absent. -/
def rLookup : SheetRecord → String → JsVal
  | [], _ => .undef
  | (k', v) :: rest, k => if k' = k then v else rLookup rest k

/-- JS spread update `{...r, [k]: v}`: overwrite in place when `k` is
already a key (its position is kept), otherwise append `(k, v)`. -/
def rInsert : SheetRecord → String → JsVal → SheetRecord
  | [], k, v => [(k, v)]
  | (k', v') :: rest, k, v =>
    if k' = k then (k, v) :: rest else (k', v') :: rInsert rest k v

/-- JS array read `row[i]`: `undefined` beyond the end of the array. -/
def getIdx (row : List JsVal) (i : Nat) : JsVal :=
  (row.get? i).getD JsVal.undef

/-- The column names of a schema, in declared order. -/
def schemaNames (columnTypes : List ColumnType) : List String :=
  columnTypes.map ColumnType.name

/-- Position of the first occurrence of a name in a list of names
(total; returns the length when absent). -/
def idxOfName (k : String) : List String → Nat
  | [] => 0
  | n :: ns => if n = k then 0 else idxOfName k ns + 1

/-! ### Record codec (`createSheetQuery` lines 196-200 and `commit` lines 213-215) -/

/-- The body of `columnTypes.reduce((acc, { name }, index) => ({ ...acc,
[name]: row[index] }), {})`: walk the schema columns with their index,
inserting `row[index]` under each column name. -/
def decodeRowAux (row : List JsVal) : List ColumnType → Nat → SheetRecord → SheetRecord
  | [], _, acc => acc
  | c :: cs, i, acc => decodeRowAux row cs (i + 1) (rInsert acc c.name (getIdx row i))

/-- Decode one body row into a record, reading each schema column's value
at the column's position in the schema's declared order. -/
def decodeRow (columnTypes : List ColumnType) (row : List JsVal) : SheetRecord :=
  decodeRowAux row columnTypes 0 []

/-- Decode of the body rows (`values.map(row => columnTypes.reduce(...))`). -/
def decodeRecords (values : List (List JsVal)) (columnTypes : List ColumnType) :
    List SheetRecord :=
  values.map (decodeRow columnTypes)

/-- Encode one record into a row in schema column order
(`columnTypes.map(({ name }) => record[name])`). -/
def encodeRow (columnTypes : List ColumnType) (r : SheetRecord) : List JsVal :=
  columnTypes.map (fun c => rLookup r c.name)

/-- Encode of the working set (`__records.map(record => columnTypes.map(...))`). -/
def encodeRecords (columnTypes : List ColumnType) (records : List SheetRecord) :
    List (List JsVal) :=
  records.map (encodeRow columnTypes)

/-! ### Table session (`createSheetQuery` lines 202-218) -/

/-- State owned by one table session: the in-memory working set
(the closure variable `__records`) and the backing sheet's value grid. -/
structure TableState where
  records : List SheetRecord
  sheet : List (List JsVal)
deriving DecidableEq

/-- Session `read()`: the current working set. -/
def read (s : TableState) : List SheetRecord :=
  s.records

/-- Session `set(records)`: replace the whole working set. -/
def set (records : List SheetRecord) (s : TableState) : TableState :=
  { s with records := records }

/-- Session `append(records)`: concatenate at the end of the working set. -/
def append (records : List SheetRecord) (s : TableState) : TableState :=
  { s with records := s.records ++ records }

/-- Session `deleteIf(condition)`:
`__records = __records.filter(r => !condition(r))`. -/
def deleteIf (condition : SheetRecord → Bool) (s : TableState) : TableState :=
  { s with records := s.records.filter (fun r => !condition r) }

/-- Effect of `sheet.getRange(2, 1, n, m).setValues(vals)` on the grid:
row 1 (the header) is kept, rows 2 .. n+1 are replaced by `vals`, and any
rows below the written range are kept.  The written rectangle spans every
column, since each encoded row has exactly one cell per schema column. -/
def writeRowsFromRow2 (sheet : List (List JsVal)) (vals : List (List JsVal)) :
    List (List JsVal) :=
  sheet.take 1 ++ vals ++ sheet.drop (1 + vals.length)

/-- Session `commit()`: encode the working set and write it below the
header.  `values[0].length` is evaluated before the write; on an empty
working set `values[0]` is `undefined` and the property read throws a
`TypeError`, modelled by `none`. -/
def commit (columnTypes : List ColumnType) (s : TableState) : Option TableState :=
  match encodeRecords columnTypes s.records with
  | [] => none
  | v :: vs => some { s with sheet := writeRowsFromRow2 s.sheet (v :: vs) }

/-! ### Header validator (`HEADER_REGEX` and `validateColumnTypes`, lines 145-173) -/

/-- JS `\s` on the characters that can occur in sheet cells. -/
def isJsSpace (c : Char) : Bool :=
  c = ' ' || c = '\t' || c = '\n' || c = '\r' || c = Char.ofNat 11 || c = Char.ofNat 12

/-- Length of the longest all-whitespace prefix. -/
def leadingSpaces : List Char → Nat
  | [] => 0
  | c :: cs => if isJsSpace c then leadingSpaces cs + 1 else 0

/-- Whether every character is whitespace. -/
def allSpaces (l : List Char) : Bool :=
  l.all isJsSpace

/-- Split a character list at its first `<`: the part before it and the
part after it.  `none` when no `<` occurs. -/
def splitAtLt : List Char → Option (List Char × List Char)
  | [] => none
  | c :: cs =>
    if c = '<' then some ([], cs)
    else (splitAtLt cs).map (fun p => (c :: p.1, p.2))

/-- The characters a type alternative must contribute after the `<`:
the tag's spelling followed by `>`. -/
def tyTail (t : TypeName) : List Char :=
  t.toStr.toList ++ ['>']

/-- Match of `(string|number|boolean|Date)>\s*$` against the characters
after the first `<`.  The four alternatives are mutually prefix-free, so
at most one matches. -/
def matchTypePart (post : List Char) : Option TypeName :=
  [TypeName.string, TypeName.number, TypeName.boolean, TypeName.date].find?
    (fun t => (tyTail t).isPrefixOf post && allSpaces (post.drop (tyTail t).length))

/-- Capture of group 1 of `HEADER_REGEX` against the characters before the
first `<`.  The prefix must decompose as `\s*` ++ group ++ `\s+`; the
backtracking engine maximises the leading whitespace run first and the
greedy group second, so the group is the prefix minus
`min (leading whitespace) (length - 2)` leading characters and minus the
single final whitespace character consumed by `\s+`. -/
def matchName (pre : List Char) : Option (List Char) :=
  match pre.getLast? with
  | none => none
  | some c =>
    if 2 ≤ pre.length ∧ isJsSpace c then
      some ((pre.drop (min (leadingSpaces pre) (pre.length - 2))).dropLast)
    else none

/-- Model of `HEADER_REGEX.exec(rawHeader)` returning the two captures:
`/^\s*(?:([^<]+)\s+<(string|number|boolean|Date)>)\s*$/`.  A successful
match is exactly a decomposition `\s*`, nonempty `<`-free name, `\s+`,
`<`, type tag, `>`, `\s*`; the matched `<` is necessarily the first `<`
of the string. -/
def execHeaderRegex (s : String) : Option (String × TypeName) :=
  match splitAtLt s.toList with
  | none => none
  | some (pre, post) =>
    match matchTypePart post, matchName pre with
    | some ty, some name => some (⟨name⟩, ty)
    | _, _ => none

/-- The lookup `columnTypes.find(t => t.type === derivedTypeName &&
t.name === header)`. -/
def findColumnType (columnTypes : List ColumnType) (name : String) (ty : TypeName) :
    Option ColumnType :=
  columnTypes.find? (fun t => t.type = ty && t.name = name)

/-- The `headers.forEach` loop of `validateColumnTypes`: the first failing
cell throws.  A non-string cell throws the header-type error, a cell that
does not match `HEADER_REGEX` throws the header-format error, and a cell
whose captures match no declared column throws the unknown-header error. -/
def validateHeaderCells (columnTypes : List ColumnType) : List JsVal → Except String Unit
  | [] => .ok ()
  | cell :: rest =>
    match cell with
    | .vStr s =>
      match execHeaderRegex s with
      | none => .error ("Header does not properly defined. (" ++ s ++ ")")
      | some (name, ty) =>
        match findColumnType columnTypes name ty with
        | none => .error ("Unknown headers are defined. (" ++ s ++ ")")
        | some _ => validateHeaderCells columnTypes rest
    | _ => .error "Header does not type of string."

/-- `validateColumnTypes(sheetValues, columnTypes)`: validate the first
row of the grid.  On an empty grid `sheetValues.slice(0, 1)[0]` is
`undefined` and the `forEach` call on it throws a `TypeError`. -/
def validateColumnTypes (sheetValues : List (List JsVal))
    (columnTypes : List ColumnType) : Except String Unit :=
  match sheetValues.head? with
  | none => .error "TypeError: Cannot read properties of undefined"
  | some headers => validateHeaderCells columnTypes headers

/-! ### Column index resolver (`getColumnIndices`, `sheetQuery/index.ts`
lines 52-65; `getHeaderIndices` in the draft variant is the same fold) -/

/-- The schema argument of the resolver variant: a JS object mapping each
column name to its type tag. -/
abbrev ColumnTypesMap := List (String × TypeName)

/-- The resolver's result: a JS object mapping column names to header
positions. -/
abbrev ColumnIndexMap := List (String × Nat)

/-- JS object read `columnType[h]` (`undefined` modelled as `none`). -/
def ctLookup : ColumnTypesMap → String → Option TypeName
  | [], _ => none
  | (k', t) :: rest, k => if k' = k then some t else ctLookup rest k

/-- JS object read on the index map. -/
def ciLookup : ColumnIndexMap → String → Option Nat
  | [], _ => none
  | (k', i) :: rest, k => if k' = k then some i else ciLookup rest k

/-- JS spread update `{...acc, [h]: i}` on the index map. -/
def ciInsert : ColumnIndexMap → String → Nat → ColumnIndexMap
  | [], k, i => [(k, i)]
  | (k', i') :: rest, k, i =>
    if k' = k then (k, i) :: rest else (k', i') :: ciInsert rest k i

/-- The body of `headers.reduce((acc, h, i) => ...)`: record the position
of each header declared in the schema and throw on the first header that
is not declared.  No check that every declared column appeared is made. -/
def getColumnIndicesAux (columnType : ColumnTypesMap) :
    List String → Nat → ColumnIndexMap → Except String ColumnIndexMap
  | [], _, acc => .ok acc
  | h :: rest, i, acc =>
    match ctLookup columnType h with
    | some _ => getColumnIndicesAux columnType rest (i + 1) (ciInsert acc h i)
    | none => .error ("Unknown column name: \"" ++ h ++ "\"")

/-- `getColumnIndices(headers, columnType)`: scan the header row left to
right, building the column-name-to-position map. -/
def getColumnIndices (headers : List String) (columnType : ColumnTypesMap) :
    Except String ColumnIndexMap :=
  getColumnIndicesAux columnType headers 0 []

/-! ### Transaction runner (`useSheetQuery`, `index2.ts` lines 232-267) -/

/-- A thrown JS value: either an `Error` object carrying a name and a
message, or any other value together with its `` `${error}` ``
stringification. -/
inductive JsError : Type
  | errObj (name message : String)
  | nonErr (str : String)
deriving DecidableEq

/-- The `Result<T, Error>` container (`utils/result.ts`): `Ok` holds the
success value, `Err` holds the error's name and message. -/
inductive RResult (T : Type) : Type
  | Ok (value : T)
  | Err (name message : String)
deriving DecidableEq

/-- The `catch` clause: an `Error` instance is returned as is; any other
thrown value is wrapped in `new Error(` ``${error}`` `)`, whose name is
`"Error"` and whose message is the stringification. -/
def errToResult {T : Type} : JsError → RResult T
  | .errObj n m => .Err n m
  | .nonErr s => .Err "Error" s

/-- Observable outcome of one `useSheetQuery` invocation: the returned
result, the final backing store, how many times `lock.releaseLock()` ran,
and whether the caller-supplied procedure was invoked. -/
structure RunOutcome (T Store : Type) where
  result : RResult T
  store : Store
  lockReleases : Nat
  procInvoked : Bool

/-- Resolution of the `timeouts` option:
`options = options ?? { timeouts: 5000 }; options.timeouts =
options.timeouts ?? 5000`.  The outer `Option` is the absent `options`
argument, the inner one its absent `timeouts` field. -/
def resolveTimeouts (options : Option (Option Nat)) : Nat :=
  (options.getD none).getD 5000

/-- The transaction runner `useSheetQuery`.  `lockWait t` is the outcome
of `lock.waitLock(t)` (which throws when the lock cannot be acquired
within `t` milliseconds), `createQueries` the outcome of
`configs.map(config => createSheetQuery(config, sheets))` (which reads
but never writes the store), and `proc` the caller-supplied procedure,
which may mutate the store through `commit` and may throw.  The
`try`/`catch`/`finally` structure is translated branch by branch: every
branch carries exactly the one `releaseLock()` call of the `finally`
block. -/
def useSheetQuery {SS T Store : Type}
    (lockWait : Nat → Except JsError Unit)
    (createQueries : Except JsError SS)
    (proc : SS → Store → Except JsError T × Store)
    (options : Option (Option Nat))
    (store : Store) : RunOutcome T Store :=
  match lockWait (resolveTimeouts options) with
  | .error e => ⟨errToResult e, store, 1, false⟩
  | .ok _ =>
    match createQueries with
    | .error e => ⟨errToResult e, store, 1, false⟩
    | .ok ss =>
      match proc ss store with
      | (.error e, store2) => ⟨errToResult e, store2, 1, true⟩
      | (.ok v, store2) => ⟨.Ok v, store2, 1, true⟩



/-! ## Basic lemmas about the JS-object model -/

/-- Reading after a spread update: the updated key yields the new value,
any other key is unaffected. -/
theorem rLookup_rInsert (r : SheetRecord) (k k' : String) (v : JsVal) :
    rLookup (rInsert r k v) k' = if k = k' then v else rLookup r k' := by
  induction r with
  | nil => simp [rInsert, rLookup]
  | cons p rest ih =>
    obtain ⟨a, b⟩ := p
    by_cases hak : a = k
    · subst hak
      simp only [rInsert, if_pos rfl, rLookup]
      by_cases hk : a = k'
      · simp [hk]
      · simp [hk, rLookup]
    · simp only [rInsert, if_neg hak, rLookup]
      by_cases hak' : a = k'
      · subst hak'
        have hkk' : ¬k = a := fun h => hak h.symm
        simp [hkk']
      · simp [hak', ih]

/-- A key that is not among a record's keys reads as `undefined`. -/
theorem rLookup_eq_undef_of_not_mem (r : SheetRecord) (k : String)
    (h : k ∉ r.map Prod.fst) : rLookup r k = .undef := by
  induction r with
  | nil => rfl
  | cons p rest ih =>
    obtain ⟨a, b⟩ := p
    simp only [List.map_cons, List.mem_cons] at h
    push_neg at h
    simp only [rLookup]
    rw [if_neg fun hh => h.1 hh.symm]
    exact ih h.2

/-- Reading the index map after a spread update. -/
theorem ciLookup_ciInsert (m : ColumnIndexMap) (k k' : String) (i : Nat) :
    ciLookup (ciInsert m k i) k' = if k = k' then some i else ciLookup m k' := by
  induction m with
  | nil => simp [ciInsert, ciLookup]
  | cons p rest ih =>
    obtain ⟨a, j⟩ := p
    by_cases hak : a = k
    · subst hak
      simp only [ciInsert, if_pos rfl, ciLookup]
      by_cases hk : a = k'
      · simp [hk]
      · simp [hk, ciLookup]
    · simp only [ciInsert, if_neg hak, ciLookup]
      by_cases hak' : a = k'
      · subst hak'
        have hkk' : ¬k = a := fun h => hak h.symm
        simp [hkk']
      · simp [hak', ih]

/-! ## Lemmas about the record codec -/

/-- Value of a decoded record at any key: for a schema with distinct
column names, a key declared at position `j` of the remaining columns
reads the row cell at offset `i + j`, and any other key reads whatever
the accumulator held. -/
theorem rLookup_decodeRowAux (row : List JsVal) (k : String) :
    ∀ (cs : List ColumnType) (i : Nat) (acc : SheetRecord),
      (schemaNames cs).Nodup →
      rLookup (decodeRowAux row cs i acc) k =
        if k ∈ schemaNames cs then getIdx row (i + idxOfName k (schemaNames cs))
        else rLookup acc k := by
  intro cs
  induction cs with
  | nil =>
    intro i acc _
    simp [decodeRowAux, schemaNames]
  | cons c cs ih =>
    intro i acc hnd
    have hnames : schemaNames (c :: cs) = c.name :: schemaNames cs := rfl
    rw [hnames, List.nodup_cons] at hnd
    simp only [decodeRowAux]
    rw [ih (i + 1) _ hnd.2]
    by_cases hk : k ∈ schemaNames cs
    · have hkc : ¬c.name = k := fun h => hnd.1 (h ▸ hk)
      rw [if_pos hk, hnames, if_pos (List.mem_cons_of_mem _ hk)]
      simp only [idxOfName, if_neg hkc]
      congr 1
      omega
    · rw [if_neg hk, rLookup_rInsert]
      by_cases hck : c.name = k
      · rw [if_pos hck, hnames, if_pos (by simp [hck])]
        simp [idxOfName, hck]
      · have hknot : k ∉ c.name :: schemaNames cs := by
          simp only [List.mem_cons]
          push_neg
          exact ⟨fun h => hck h.symm, hk⟩
        rw [if_neg hck, hnames, if_neg hknot]

/-- Reading the encoded row at the position of a declared column name
recovers the record's value under that name. -/
theorem getIdx_encodeRow (ct : List ColumnType) (r : SheetRecord) (k : String)
    (hk : k ∈ schemaNames ct) :
    getIdx (encodeRow ct r) (idxOfName k (schemaNames ct)) = rLookup r k := by
  induction ct with
  | nil => simp [schemaNames] at hk
  | cons c cs ih =>
    by_cases hck : c.name = k
    · simp [encodeRow, schemaNames, idxOfName, hck, getIdx]
    · have hk' : k ∈ schemaNames cs := by
        rcases (by simpa [schemaNames] using hk : k = c.name ∨ k ∈ schemaNames cs) with h | h
        · exact absurd h.symm hck
        · exact h
      have hstep : idxOfName k (schemaNames (c :: cs)) = idxOfName k (schemaNames cs) + 1 := by
        simp [schemaNames, idxOfName, hck]
      rw [hstep]
      have hrow : encodeRow (c :: cs) r = rLookup r c.name :: encodeRow cs r := rfl
      rw [hrow]
      simpa [getIdx] using ih hk'

/-- With distinct column names, the declared position of the column at
index `i` is `i` itself. -/
theorem idxOfName_get? (ct : List ColumnType) :
    ∀ (i : Nat) (c : ColumnType), (schemaNames ct).Nodup → ct.get? i = some c →
      idxOfName c.name (schemaNames ct) = i := by
  induction ct with
  | nil =>
    intro i c _ h
    simp at h
  | cons c0 cs ih =>
    intro i c hnd hget
    have hnames : schemaNames (c0 :: cs) = c0.name :: schemaNames cs := rfl
    rw [hnames, List.nodup_cons] at hnd
    cases i with
    | zero =>
      simp only [List.get?] at hget
      cases hget
      simp [schemaNames, idxOfName]
    | succ n =>
      simp only [List.get?] at hget
      have hmem : c ∈ cs := List.get?_mem hget
      have hmemname : c.name ∈ schemaNames cs := by
        simp [schemaNames]
        exact ⟨c, hmem, rfl⟩
      have hne : ¬c0.name = c.name := fun h => hnd.1 (h ▸ hmemname)
      rw [hnames]
      simp only [idxOfName, if_neg hne]
      rw [ih n c hnd.2 hget]

/-- Extensional equality of two records as JS objects: every property
read yields the same value. -/
def recEquiv (r1 r2 : SheetRecord) : Prop :=
  ∀ k, rLookup r1 k = rLookup r2 k

/-- Round trip on one record: decoding the encoded row of a record whose
keys all belong to a duplicate-free schema reproduces the record up to
JS-object equality. -/
theorem recEquiv_decode_encode_single (ct : List ColumnType) (r : SheetRecord)
    (hnodup : (schemaNames ct).Nodup)
    (hsub : ∀ k ∈ r.map Prod.fst, k ∈ schemaNames ct) :
    recEquiv (decodeRow ct (encodeRow ct r)) r := by
  intro k
  rw [decodeRow, rLookup_decodeRowAux _ _ ct 0 [] hnodup]
  by_cases hk : k ∈ schemaNames ct
  · rw [if_pos hk]
    simpa using getIdx_encodeRow ct r k hk
  · rw [if_neg hk]
    have hnot : k ∉ r.map Prod.fst := fun h => hk (hsub k h)
    rw [rLookup_eq_undef_of_not_mem r k hnot]
    rfl


/-! ## Lemmas about the column index resolver -/

/-- The scan succeeds exactly when every header cell's name is declared
in the schema; the start index and accumulator are irrelevant to success. -/
theorem getColumnIndicesAux_ok_iff (columnType : ColumnTypesMap) :
    ∀ (headers : List String) (i : Nat) (acc : ColumnIndexMap),
      (∃ m, getColumnIndicesAux columnType headers i acc = .ok m) ↔
        ∀ h ∈ headers, (ctLookup columnType h).isSome = true := by
  intro headers
  induction headers with
  | nil =>
    intro i acc
    constructor
    · intro _ h hmem
      cases hmem
    · intro _
      exact ⟨acc, rfl⟩
  | cons h rest ih =>
    intro i acc
    cases hct : ctLookup columnType h with
    | some t =>
      simp only [getColumnIndicesAux, hct]
      rw [ih (i + 1) (ciInsert acc h i)]
      constructor
      · intro hall h' hmem
        rcases List.mem_cons.mp hmem with rfl | hmem'
        · simp [hct]
        · exact hall h' hmem'
      · intro hall h' hmem
        exact hall h' (List.mem_cons_of_mem _ hmem)
    | none =>
      simp only [getColumnIndicesAux, hct]
      constructor
      · rintro ⟨m, hm⟩
        cases hm
      · intro hall
        have := hall h (List.mem_cons_self _ _)
        rw [hct] at this
        cases this

/-- Every header scanned by a successful run, and every key of the
accumulator, has a position in the resulting map. -/
theorem getColumnIndicesAux_assigns (columnType : ColumnTypesMap) :
    ∀ (headers : List String) (i : Nat) (acc m : ColumnIndexMap),
      getColumnIndicesAux columnType headers i acc = .ok m →
      ∀ h, (h ∈ headers ∨ (ciLookup acc h).isSome = true) →
        (ciLookup m h).isSome = true := by
  intro headers
  induction headers with
  | nil =>
    intro i acc m hok h hmem
    cases hok
    rcases hmem with hmem | hacc
    · cases hmem
    · exact hacc
  | cons h0 rest ih =>
    intro i acc m hok h hmem
    rw [getColumnIndicesAux] at hok
    cases hct : ctLookup columnType h0 with
    | some t =>
      rw [hct] at hok
      refine ih (i + 1) (ciInsert acc h0 i) m hok h ?_
      rcases hmem with hmem | hacc
      · rcases List.mem_cons.mp hmem with rfl | hmem'
        · right
          rw [ciLookup_ciInsert, if_pos rfl]
          rfl
        · left
          exact hmem'
      · right
        rw [ciLookup_ciInsert]
        by_cases hh : h0 = h
        · rw [if_pos hh]
          rfl
        · rw [if_neg hh]
          exact hacc
    | none =>
      rw [hct] at hok
      cases hok

/-! ## Lemmas about the header validator -/

/-- Acceptance of one header cell by `validateColumnTypes`: the cell is a
string, it matches `HEADER_REGEX`, and its captured name and type are
declared in the schema. -/
def headerCellOk (columnTypes : List ColumnType) (cell : JsVal) : Prop :=
  ∃ s name ty, cell = .vStr s ∧ execHeaderRegex s = some (name, ty)
    ∧ (findColumnType columnTypes name ty).isSome = true

/-- The `forEach` loop succeeds exactly when every cell is accepted. -/
theorem validateHeaderCells_ok_iff (columnTypes : List ColumnType) (cells : List JsVal) :
    validateHeaderCells columnTypes cells = .ok () ↔
      ∀ cell ∈ cells, headerCellOk columnTypes cell := by
  induction cells with
  | nil => simp [validateHeaderCells]
  | cons cell rest ih =>
    constructor
    · intro hok
      have hsplit : headerCellOk columnTypes cell ∧
          validateHeaderCells columnTypes rest = .ok () := by
        cases cell with
        | vStr s =>
          rw [validateHeaderCells] at hok
          cases hre : execHeaderRegex s with
          | none =>
            simp only [hre] at hok
            cases hok
          | some nt =>
            obtain ⟨name, ty⟩ := nt
            simp only [hre] at hok
            cases hf : findColumnType columnTypes name ty with
            | none =>
              simp only [hf] at hok
              cases hok
            | some c =>
              simp only [hf] at hok
              exact ⟨⟨s, name, ty, rfl, hre, by rw [hf]; rfl⟩, hok⟩
        | vNum n => cases hok
        | vBool b => cases hok
        | vDate d => cases hok
        | undef => cases hok
      intro cell' hmem
      rcases List.mem_cons.mp hmem with rfl | hmem'
      · exact hsplit.1
      · exact (ih.mp hsplit.2) cell' hmem'
    · intro hall
      obtain ⟨s, name, ty, hcell, hre, hf⟩ := hall cell (List.mem_cons_self _ _)
      subst hcell
      rw [validateHeaderCells]
      simp only [hre]
      cases hfind : findColumnType columnTypes name ty with
      | none =>
        rw [hfind] at hf
        cases hf
      | some c =>
        simp only [hfind]
        exact ih.mpr (fun cell' hmem' => hall cell' (List.mem_cons_of_mem _ hmem'))

/-! ## Claim theorems -/

/-- C1: Round-trip law of the Record Codec — for a schema with distinct
column names and a list of records whose key sets exactly equal the
schema's column names, decoding the grid produced by encoding those
records yields the original records, compared as JS objects
(`recEquiv`: every property read agrees). -/
theorem decode_encode_roundtrip (ct : List ColumnType) (records : List SheetRecord)
    (hnodup : (schemaNames ct).Nodup)
    (hkeys : ∀ r ∈ records,
      (∀ k ∈ r.map Prod.fst, k ∈ schemaNames ct) ∧
      (∀ k ∈ schemaNames ct, k ∈ r.map Prod.fst)) :
    List.Forall₂ recEquiv (decodeRecords (encodeRecords ct records) ct) records := by
  unfold decodeRecords encodeRecords
  rw [List.map_map, List.forall₂_map_left_iff, List.forall₂_same]
  intro r hr
  exact recEquiv_decode_encode_single ct r hnodup ((hkeys r hr).1)

/-- The group schema of the repository's usage example. -/
def exSchema : List ColumnType :=
  [⟨"Group ID", .string⟩, ⟨"Name", .string⟩, ⟨"Ave. Grades", .number⟩]

/-- The records passed to `set` in the usage example, one of them with
its keys in a different order than the schema. -/
def exRecords : List SheetRecord :=
  [[("Group ID", .vStr "0123"), ("Name", .vStr "aaa"), ("Ave. Grades", .vNum 1)],
   [("Ave. Grades", .vNum 6), ("Group ID", .vStr "4567"), ("Name", .vStr "bbb")]]

/-- Witness for C1 at the example schema and records. -/
theorem decode_encode_roundtrip_witness :
    List.Forall₂ recEquiv (decodeRecords (encodeRecords exSchema exRecords) exSchema)
      exRecords :=
  decode_encode_roundtrip exSchema exRecords (by decide) (by decide)

/-- C2: the transaction runner releases the shared lock exactly once on
every exit path — lock timeout, session-setup failure, procedure throw
and normal return each perform the single `finally` release. -/
theorem useSheetQuery_releases_lock_once {SS T Store : Type}
    (lockWait : Nat → Except JsError Unit) (createQueries : Except JsError SS)
    (proc : SS → Store → Except JsError T × Store)
    (options : Option (Option Nat)) (store : Store) :
    (useSheetQuery lockWait createQueries proc options store).lockReleases = 1 := by
  unfold useSheetQuery
  split
  · rfl
  · split
    · rfl
    · split <;> rfl

/-- C3: result classification of the transaction runner — when the lock,
the session setup and the procedure all succeed, the runner returns `Ok`
of the procedure's value; when any step throws, it returns `Err` built
from that first error, preserving an `Error` object's name and message;
the `RResult` return type itself leaves no room for an uncaught fault. -/
theorem useSheetQuery_result_classification {SS T Store : Type}
    (lockWait : Nat → Except JsError Unit) (createQueries : Except JsError SS)
    (proc : SS → Store → Except JsError T × Store)
    (options : Option (Option Nat)) (store : Store) :
    (∀ ss v store2, lockWait (resolveTimeouts options) = .ok () →
        createQueries = .ok ss → proc ss store = (.ok v, store2) →
        (useSheetQuery lockWait createQueries proc options store).result = .Ok v)
    ∧ (∀ e, lockWait (resolveTimeouts options) = .error e →
        (useSheetQuery lockWait createQueries proc options store).result = errToResult e)
    ∧ (∀ e, lockWait (resolveTimeouts options) = .ok () → createQueries = .error e →
        (useSheetQuery lockWait createQueries proc options store).result = errToResult e)
    ∧ (∀ ss e store2, lockWait (resolveTimeouts options) = .ok () →
        createQueries = .ok ss → proc ss store = (.error e, store2) →
        (useSheetQuery lockWait createQueries proc options store).result = errToResult e)
    ∧ (∀ name msg, @errToResult T (.errObj name msg) = .Err name msg) := by
  refine ⟨?_, ?_, ?_, ?_, ?_⟩
  · intro ss v store2 h1 h2 h3
    unfold useSheetQuery
    rw [h1, h2]
    simp only [h3]
  · intro e h1
    unfold useSheetQuery
    rw [h1]
  · intro e h1 h2
    unfold useSheetQuery
    rw [h1, h2]
  · intro ss e store2 h1 h2 h3
    unfold useSheetQuery
    rw [h1, h2]
    simp only [h3]
  · intro name msg
    rfl

/-- Witness for C3: a successful run returns `Ok` of the procedure's value. -/
theorem useSheetQuery_result_classification_witness :
    (useSheetQuery (fun _ => Except.ok ()) (Except.ok 0)
        (fun (_ : Nat) (st : Nat) => (Except.ok 42, st)) none 0).result
      = RResult.Ok 42 :=
  (useSheetQuery_result_classification (fun _ => Except.ok ()) (Except.ok 0)
      (fun _ st => (Except.ok 42, st)) none 0).1 0 42 0 rfl rfl rfl

/-- C4: when lock acquisition times out (the `waitLock` call throws), the
runner returns a failure result, the caller-supplied procedure is never
invoked, and the backing store is unchanged. -/
theorem useSheetQuery_lock_timeout {SS T Store : Type}
    (lockWait : Nat → Except JsError Unit) (createQueries : Except JsError SS)
    (proc : SS → Store → Except JsError T × Store)
    (options : Option (Option Nat)) (store : Store) (e : JsError)
    (htimeout : lockWait (resolveTimeouts options) = .error e) :
    (useSheetQuery lockWait createQueries proc options store).procInvoked = false
    ∧ (useSheetQuery lockWait createQueries proc options store).store = store
    ∧ ∃ name msg,
        (useSheetQuery lockWait createQueries proc options store).result
          = .Err name msg := by
  unfold useSheetQuery
  rw [htimeout]
  refine ⟨rfl, rfl, ?_⟩
  cases e with
  | errObj n m => exact ⟨n, m, rfl⟩
  | nonErr s => exact ⟨"Error", s, rfl⟩

/-- Witness for C4 at a concrete timing-out lock. -/
theorem useSheetQuery_lock_timeout_witness :
    (useSheetQuery (fun _ => Except.error (JsError.errObj "Error" "Could not acquire lock"))
        (Except.ok 0) (fun (_ : Nat) (st : Nat) => (Except.ok 1, st)) none 7).procInvoked
      = false
    ∧ (useSheetQuery (fun _ => Except.error (JsError.errObj "Error" "Could not acquire lock"))
        (Except.ok 0) (fun (_ : Nat) (st : Nat) => (Except.ok 1, st)) none 7).store = 7
    ∧ ∃ name msg,
        (useSheetQuery (fun _ => Except.error (JsError.errObj "Error" "Could not acquire lock"))
          (Except.ok 0) (fun (_ : Nat) (st : Nat) => (Except.ok 1, st)) none 7).result
          = .Err name msg :=
  useSheetQuery_lock_timeout
    (fun _ => Except.error (JsError.errObj "Error" "Could not acquire lock"))
    (Except.ok 0) (fun _ st => (Except.ok 1, st)) none 7
    (JsError.errObj "Error" "Could not acquire lock") rfl

/-- C5 (claim right, code wrong): `commit()` on a session whose working
set is empty does not degrade to a header-only no-op write — the encoded
value grid is empty, so the source's `values[0].length` reads a property
of `undefined` and throws before any range write, for every schema and
every backing sheet. -/
theorem commit_empty_working_set_throws (columnTypes : List ColumnType)
    (sheet : List (List JsVal)) :
    commit columnTypes ⟨[], sheet⟩ = none := rfl

/-- C6 counterexample: the schema declares columns `A` and `B` but the
header row contains only `A`; the resolver succeeds instead of failing,
and the declared column `B` has no position in the returned map. -/
theorem getColumnIndices_counterexample :
    getColumnIndices ["A"] [("A", TypeName.string), ("B", TypeName.string)]
        = .ok [("A", 0)]
    ∧ ciLookup [("A", 0)] "B" = none :=
  ⟨rfl, rfl⟩

/-- C6 amended: the resolver fails (with the unknown-column error)
exactly when some header cell is not declared in the schema; a successful
resolve assigns a position to every header cell's name, but a schema
column absent from the header row is not detected. -/
theorem getColumnIndices_ok_iff (headers : List String) (columnType : ColumnTypesMap) :
    ((∃ m, getColumnIndices headers columnType = .ok m) ↔
      ∀ h ∈ headers, (ctLookup columnType h).isSome = true)
    ∧ (∀ m, getColumnIndices headers columnType = .ok m →
        ∀ h ∈ headers, (ciLookup m h).isSome = true) := by
  constructor
  · exact getColumnIndicesAux_ok_iff columnType headers 0 []
  · intro m hok h hmem
    exact getColumnIndicesAux_assigns columnType headers 0 [] m hok h (Or.inl hmem)

/-- Witness for C6 (amended): a successful resolve assigns a position to
the scanned header name. -/
theorem getColumnIndices_ok_iff_witness :
    (ciLookup [("A", 0)] "A").isSome = true :=
  (getColumnIndices_ok_iff ["A"] [("A", TypeName.string)]).2 [("A", 0)] rfl "A"
    (List.mem_singleton.mpr rfl)

/-- C7: `deleteIf` removes exactly the records on which the condition
holds (counted with multiplicity), keeps the survivors in their relative
order (sublist), and leaves the working set unchanged when no record
matches. -/
theorem deleteIf_spec (condition : SheetRecord → Bool) (s : TableState) :
    (deleteIf condition s).records.Sublist s.records
    ∧ (∀ r, (deleteIf condition s).records.count r
        = if condition r then 0 else s.records.count r)
    ∧ ((∀ r ∈ s.records, condition r = false) →
        (deleteIf condition s).records = s.records) := by
  refine ⟨List.filter_sublist _, ?_, ?_⟩
  · intro r
    by_cases hc : condition r
    · rw [if_pos hc, List.count_eq_zero]
      intro hmem
      have := (List.mem_filter.mp hmem).2
      rw [hc] at this
      cases this
    · rw [if_neg hc]
      exact List.count_filter (by rw [Bool.not_eq_true] at hc; rw [hc]; rfl)
  · intro hall
    show s.records.filter (fun r => !condition r) = s.records
    exact List.filter_eq_self.mpr (fun r hr => by rw [hall r hr]; rfl)

/-- A one-record session state used to exercise the session operations. -/
def exState : TableState :=
  ⟨[[("A", .vStr "x")]], [[.vStr "A <string>"]]⟩

/-- Witness for C7: a never-matching condition leaves the working set
unchanged. -/
theorem deleteIf_spec_witness :
    (deleteIf (fun _ => false) exState).records = exState.records :=
  (deleteIf_spec (fun _ => false) exState).2.2 (fun _ _ => rfl)

/-- C8 counterexample: an unannotated header cell whose raw text is a
schema-declared column name is rejected with the header-format error
instead of being accepted. -/
theorem validate_rejects_unannotated_header :
    validateColumnTypes [[.vStr "Name"]] [⟨"Name", TypeName.string⟩]
      = .error "Header does not properly defined. (Name)" := rfl

/-- C8 amended: the validator accepts a grid exactly when it has a first
row and every one of its cells is a string matching the
`name <type>` annotation grammar whose captures are declared in the
schema; in particular every unannotated cell is rejected (with the
header-format error), not treated as a plain column name. -/
theorem validateColumnTypes_ok_iff (sheetValues : List (List JsVal))
    (columnTypes : List ColumnType) :
    validateColumnTypes sheetValues columnTypes = .ok () ↔
      ∃ headers rest, sheetValues = headers :: rest
        ∧ ∀ cell ∈ headers, headerCellOk columnTypes cell := by
  cases sheetValues with
  | nil =>
    constructor
    · intro h
      cases h
    · rintro ⟨headers, rest, heq, -⟩
      cases heq
  | cons headers rest =>
    rw [validateColumnTypes]
    show validateHeaderCells columnTypes headers = .ok () ↔ _
    rw [validateHeaderCells_ok_iff]
    constructor
    · intro hall
      exact ⟨headers, rest, rfl, hall⟩
    · rintro ⟨headers2, rest2, heq, hall⟩
      cases heq
      exact hall

/-- Witness for C8 (amended): a fully annotated declared header row is
accepted. -/
theorem validateColumnTypes_ok_iff_witness :
    validateColumnTypes [[JsVal.vStr "Name <string>"]] [⟨"Name", TypeName.string⟩]
      = .ok () :=
  (validateColumnTypes_ok_iff [[JsVal.vStr "Name <string>"]]
      [⟨"Name", TypeName.string⟩]).mpr
    ⟨[JsVal.vStr "Name <string>"], [], rfl, by
      intro cell hc
      rw [List.mem_singleton.mp hc]
      exact ⟨"Name <string>", "Name", TypeName.string, rfl, rfl, rfl⟩⟩

/-- The two-column schema used for the decode counterexamples. -/
def ctAB : List ColumnType :=
  [⟨"A", TypeName.string⟩, ⟨"B", TypeName.string⟩]

/-- C9 counterexample: a sheet whose header lists the declared columns in
the order `B`, `A` passes validation; the resolver's index map assigns
position 1 to column `A`, yet the decoded record's value under `"A"` is
the cell at position 0 (the schema position), not the cell at the
position the index map assigns. -/
theorem decode_ignores_index_map :
    validateColumnTypes
        [[.vStr "B <string>", .vStr "A <string>"], [.vStr "x", .vStr "y"]] ctAB
      = .ok ()
    ∧ getColumnIndices ["B", "A"] [("A", TypeName.string), ("B", TypeName.string)]
        = .ok [("B", 0), ("A", 1)]
    ∧ ciLookup [("B", 0), ("A", 1)] "A" = some 1
    ∧ rLookup (decodeRow ctAB [.vStr "x", .vStr "y"]) "A"
        = getIdx [.vStr "x", .vStr "y"] 0
    ∧ getIdx [.vStr "x", .vStr "y"] 0 ≠ getIdx [.vStr "x", .vStr "y"] 1 :=
  ⟨rfl, rfl, rfl, rfl, by decide⟩

/-- C9 amended: decode reads each record field by the column's position
in the schema's declared order — for every body row and every schema
column at declared position `i`, the decoded record's value under that
column's name is the row's cell at position `i`, carried through
unchanged (no coercion). -/
theorem decodeRow_reads_schema_position (ct : List ColumnType) (row : List JsVal)
    (i : Nat) (c : ColumnType) (hnodup : (schemaNames ct).Nodup)
    (hget : ct.get? i = some c) :
    rLookup (decodeRow ct row) c.name = getIdx row i := by
  have hmem : c.name ∈ schemaNames ct := by
    rw [schemaNames, List.mem_map]
    exact ⟨c, List.get?_mem hget, rfl⟩
  rw [decodeRow, rLookup_decodeRowAux row c.name ct 0 [] hnodup, if_pos hmem,
    idxOfName_get? ct i c hnodup hget, Nat.zero_add]

/-- Witness for C9 (amended) at the two-column schema. -/
theorem decodeRow_reads_schema_position_witness :
    rLookup (decodeRow ctAB [JsVal.vStr "x", JsVal.vStr "y"])
        (ColumnType.mk "A" TypeName.string).name
      = getIdx [JsVal.vStr "x", JsVal.vStr "y"] 0 :=
  decodeRow_reads_schema_position ctAB [JsVal.vStr "x", JsVal.vStr "y"] 0
    (ColumnType.mk "A" TypeName.string) (by decide) rfl

/-- C10 (frame property): `commit` never modifies the session's
in-memory working set — whenever it returns a new session state, `read`
on that state yields exactly the records `read` yielded before. -/
theorem commit_preserves_working_set (columnTypes : List ColumnType)
    (s s2 : TableState) (h : commit columnTypes s = some s2) :
    read s2 = read s := by
  unfold commit at h
  rcases henc : encodeRecords columnTypes s.records with - | ⟨v, vs⟩ <;> rw [henc] at h
  · cases h
  · cases h
    rfl

/-- Witness for C10: committing the one-record session writes the sheet
but keeps the working set. -/
theorem commit_preserves_working_set_witness :
    read ⟨[[("A", JsVal.vStr "x")]], [[JsVal.vStr "A <string>"], [JsVal.vStr "x"]]⟩
      = read exState :=
  commit_preserves_working_set [⟨"A", TypeName.string⟩] exState
    ⟨[[("A", JsVal.vStr "x")]], [[JsVal.vStr "A <string>"], [JsVal.vStr "x"]]⟩ rfl

end SpreadSheetQuery
